import Mathlib

/-!
Verification of the Mediasite batch downloader (src/mediasite_downloader.py)
against its natural-language specification.

The program is a thin orchestration layer: it reads a target list of
(name, url) pairs, runs one external downloader process per target under a
bounded thread pool, forwards each child's output lines with a per-task
tag, and tallies successes and failures.  Below, each relevant Python
function is shallowly embedded as a Lean definition:

* strings are lists of characters, and the Python string primitives the
  code uses (.strip(), .split(sep, 1), .startswith) are modelled
  explicitly;
* the effects of the outside world (the file system, spawned processes,
  user input) are parameters of the embedded functions: each possible
  outcome of a library call (success with a value, FileNotFoundError,
  OSError, any other exception) is a constructor of a small inductive
  type, and Python try/except blocks become matches on those outcomes;
* the `__main__` block is embedded as a function from those outcomes to a
  record of the supervisor's observable behaviour (exit code, scheduled
  tasks, final summary);
* the thread pool (`concurrent.futures.ThreadPoolExecutor`) is library
  code, not part of the repository; it is modelled from the spec as a
  step relation on a scheduler state.
-/

namespace Mediasite

/-! ## Character and string primitives -/

/-- The whitespace characters Python's `str.strip()` removes (the ASCII
ones, which are the only ones the claims exercise). -/
def isPySpace (c : Char) : Bool :=
  c = ' ' || c = '\t' || c = '\n' || c = '\r' || c = '\x0b' || c = '\x0c'

/-- Python `s.strip()`: remove leading and trailing whitespace. -/
def pstrip (l : List Char) : List Char :=
  ((l.dropWhile isPySpace).reverse.dropWhile isPySpace).reverse

/-- Python `s.split(' ', 1)`: the text before the first space character,
and, when a space occurs, the text after it (which may itself contain
spaces).  `(before, none)` models the one-element list Python returns when
the separator does not occur. -/
def splitOnce : List Char → List Char × Option (List Char)
  | [] => ([], none)
  | c :: cs =>
    if c = ' ' then ([], some cs)
    else
      let r := splitOnce cs
      (c :: r.1, r.2)

/-! ## Target list loader (`read_download_targets`, lines 98-131) -/

/-- A parsed target: output file base name and URL. -/
abbrev Target := List Char × List Char

/-- What the loop body of `read_download_targets` does with one line:
append a target, print a warning and skip, or silently skip (blank and
comment lines). -/
inductive LineResult where
  | skip : LineResult
  | warn : LineResult
  | target : Target → LineResult
deriving DecidableEq

/-- The body of the `for line in f` loop of `read_download_targets`:
strip the line; skip it when empty or starting with a comment marker;
split it at the first space into at most two parts; with two parts whose
stripped fields are both non-empty, produce the target, otherwise warn. -/
def processLine (rawLine : List Char) : LineResult :=
  let l := pstrip rawLine
  if l = [] then .skip
  else if l.head? = some '#' then .skip
  else
    match splitOnce l with
    | (a, some b) =>
      let name := pstrip a
      let url := pstrip b
      if name ≠ [] ∧ url ≠ [] then .target (name, url) else .warn
    | (_, none) => .warn

/-- Function `read_download_targets` on the lines of a file that could be opened:
the targets the loop appends, in line order. -/
def readDownloadTargets : List (List Char) → List Target
  | [] => []
  | line :: rest =>
    match processLine line with
    | .target t => t :: readDownloadTargets rest
    | _ => readDownloadTargets rest

/-- The loader as C1's words state it: a line whose first
WHITESPACE-separated token is non-empty and whose remainder (rest of
line, trimmed) is non-empty yields that pair; blanks and comments are
skipped.  Stated from the claim's words, for comparison with
`readDownloadTargets`. -/
def claimLineWS (rawLine : List Char) : Option Target :=
  let l := pstrip rawLine
  if l = [] then none
  else if l.head? = some '#' then none
  else
    let name := l.takeWhile (fun c => !(isPySpace c))
    let url := pstrip (l.dropWhile (fun c => !(isPySpace c)))
    if name ≠ [] ∧ url ≠ [] then some (name, url) else none

/-- The loader as the amended C1 states it: the token before the first
SPACE character, trimmed, and the remainder after that space, trimmed,
both non-empty.  Stated declaratively (via takeWhile/dropWhile), for
comparison with `readDownloadTargets`. -/
def amendedLine (rawLine : List Char) : Option Target :=
  let l := pstrip rawLine
  if l = [] then none
  else if l.head? = some '#' then none
  else
    let name := pstrip (l.takeWhile (fun c => c ≠ ' '))
    let url := pstrip ((l.dropWhile (fun c => c ≠ ' ')).tail)
    if name ≠ [] ∧ url ≠ [] then some (name, url) else none

/-! ## Preflight check (`check_yt_dlp`, lines 81-96) -/

/-- The possible outcomes of `subprocess.run(['yt-dlp', '--version'],
check=True)` as the surrounding try/except distinguishes them: the
process ran and returned an exit code, the binary was not found, or some
other exception was raised. -/
inductive RunOutcome where
  | completed (exitCode : Int) : RunOutcome
  | notFoundErr : RunOutcome
  | otherExc : RunOutcome
deriving DecidableEq

/-- Function `check_yt_dlp`: True exactly when the version query ran and exited 0
(`check=True` turns a non-zero exit into a CalledProcessError, caught and
answered with False, like FileNotFoundError and any other exception). -/
def check_yt_dlp (r : RunOutcome) : Bool :=
  match r with
  | .completed code => code = 0
  | .notFoundErr => false
  | .otherExc => false

/-! ## Download task executor (`download_video`, lines 133-237) -/

/-- The possible outcomes of `subprocess.Popen` + stream drain + `wait`
for one task, as the surrounding try/except distinguishes them. -/
inductive SpawnOutcome where
  | spawned (exitCode : Int) : SpawnOutcome
  | notFoundErr : SpawnOutcome
  | otherExc : SpawnOutcome
deriving DecidableEq

/-- Python exceptions the executor's outer try/except distinguishes. -/
inductive PyExc where
  | fileNotFound : PyExc
  | otherError : PyExc
deriving DecidableEq

/-- The outside-world facts one call of `download_video` depends on: the
output directory argument, whether `os.path.exists` finds it, whether
`os.makedirs` succeeds, and what becomes of the spawned process. -/
structure DLEnv where
  outputDir : List Char
  dirExists : Bool
  mkdirOk : Bool
  spawn : SpawnOutcome

/-- The guard `output_dir != "." and not os.path.exists(output_dir)`. -/
def needsMkdir (e : DLEnv) : Bool :=
  decide (e.outputDir ≠ ['.']) && !e.dirExists

/-- The `try` block around Popen/drain/wait: either the process's exit
code compared with 0, or the exception the except clauses will catch. -/
def downloadAttempt (e : DLEnv) : Except PyExc Bool :=
  match e.spawn with
  | .spawned code => Except.ok (decide (code = 0))
  | .notFoundErr => Except.error PyExc.fileNotFound
  | .otherExc => Except.error PyExc.otherError

/-- Function `download_video`: False when the directory must be created and
`os.makedirs` fails (the inner except returns False); otherwise the
result of the attempt, with both except clauses returning False. -/
def download_video (e : DLEnv) : Bool :=
  if needsMkdir e && !e.mkdirOk then false
  else
    match downloadAttempt e with
    | Except.ok ok => ok
    | Except.error PyExc.fileNotFound => false
    | Except.error PyExc.otherError => false

/-! ## Output forwarding (`stream_output`, lines 197-208) -/

/-- The per-task tag `[<name>] ` the executor prepends (the Python
f-string built from the output file base name). -/
def taskTag (name : List Char) : List Char :=
  '[' :: (name ++ (']' :: ' ' :: []))

/-- What `stream_output` writes to the matching stream for one line read
from the child: the tagged line when `line.strip()` is truthy, the line
unchanged otherwise. -/
def streamLine (name line : List Char) : List Char :=
  if pstrip line ≠ [] then taskTag name ++ line else line

/-! ## Result aggregation and the `__main__` block (lines 240-292) -/

/-- The outcome the `as_completed` loop observes for one future: a True
result, a False result, or `future.result()` re-raising an exception. -/
inductive TaskOutcome where
  | success : TaskOutcome
  | failure : TaskOutcome
  | fault : TaskOutcome
deriving DecidableEq

/-- One iteration of the `as_completed` loop on the running
(success, failure) counters: True bumps the success count, False and a
raised exception bump the failure count. -/
def outcomeStep (acc : Nat × Nat) (o : TaskOutcome) : Nat × Nat :=
  match o with
  | .success => (acc.1 + 1, acc.2)
  | .failure => (acc.1, acc.2 + 1)
  | .fault => (acc.1, acc.2 + 1)

/-- The whole `as_completed` loop: fold `outcomeStep` over the observed
outcomes, starting from `success_count = 0`, `fail_count = 0`. -/
def aggregate (outcomes : List TaskOutcome) : Nat × Nat :=
  outcomes.foldl outcomeStep (0, 0)

/-- The possible outcomes of `open(filename)` + read in
`read_download_targets`: the file's lines, FileNotFoundError (the
function returns None), or any other exception (also None). -/
inductive ReadOutcome where
  | opened (lines : List (List Char)) : ReadOutcome
  | notFound : ReadOutcome
  | ioError : ReadOutcome

/-- Function `read_download_targets` including its error paths: `some` targets
when the file could be opened, `none` (Python `None`) otherwise. -/
def readTargetsFile (r : ReadOutcome) : Option (List Target) :=
  match r with
  | .opened lines => some (readDownloadTargets lines)
  | .notFound => none
  | .ioError => none

/-- The supervisor's observable behaviour: its process exit code, the
targets submitted to the executor, the final summary counts when the
summary block is printed, and whether the no-valid-targets notice is
printed instead. -/
structure MainResult where
  exitCode : Nat
  scheduled : List Target
  summary : Option (Nat × Nat)
  noTargetsMsg : Bool
deriving DecidableEq

/-- The `__main__` block after the interactive prompt: exit 1 when
`check_yt_dlp` fails; exit 1 when the loader returned None; exit 0 via
the no-targets notice when the loader returned an empty list; otherwise
submit every target, run the `as_completed` loop over the outcomes, and
print the summary.  `outcomes` are the per-future outcomes the loop
observes, in completion order. -/
def mainModel (chk : RunOutcome) (rd : ReadOutcome)
    (outcomes : List TaskOutcome) : MainResult :=
  if check_yt_dlp chk = false then ⟨1, [], none, false⟩
  else
    match readTargetsFile rd with
    | none => ⟨1, [], none, false⟩
    | some ts =>
      if ts = [] then ⟨0, [], none, true⟩
      else ⟨0, ts, some (aggregate outcomes), false⟩

/-! ## Command construction (`download_video`, lines 154-187) -/

/-- The download type the interactive prompt selects. -/
inductive DownType where
  | both : DownType
  | video : DownType
  | audio : DownType
deriving DecidableEq

/-- Whether a string's first character is the path separator. -/
def startsWithSlash (s : String) : Bool :=
  match s.data with
  | c :: _ => c = '/'
  | [] => false

/-- Whether a string's last character is the path separator. -/
def endsWithSlash (s : String) : Bool :=
  match s.data.getLast? with
  | some c => c = '/'
  | none => false

/-- Python `os.path.join(a, b)` for one join on a POSIX path: an absolute
second part replaces the first; otherwise the parts are joined with a
single separator, none being added after an empty or slash-terminated
first part. -/
def osPathJoin (a b : String) : String :=
  if startsWithSlash b then b
  else if a.data = [] ∨ endsWithSlash a then a ++ b
  else a ++ "/" ++ b

/-- The argument list `download_video` builds: the base command with the
output template, then the format flags of the download type, then the
URL appended last. -/
def buildCommand (url name outputDir browser : String) (dtype : DownType) :
    List String :=
  let fullOutputPathTemplate := osPathJoin outputDir (name ++ ".%(ext)s")
  let command :=
    ["yt-dlp", "--no-check-certificates", "--cookies-from-browser", browser,
     "-o", fullOutputPathTemplate]
  let command := command ++
    (match dtype with
     | .video => ["-f", "bestvideo[ext=mp4]+bestaudio[ext=m4a]/best[ext=mp4]/best"]
     | .audio => ["-f", "bestaudio/best", "-x", "--audio-format", "mp3"]
     | .both => [])
  command ++ [url]

/-- The format flags as the spec words them: the MP4 video+audio
selector with its two fallbacks for "video", best audio extracted and
transcoded to MP3 for "audio", nothing for "both". -/
def specFormatFlags (dtype : DownType) : List String :=
  match dtype with
  | .video => ["-f", "bestvideo[ext=mp4]+bestaudio[ext=m4a]/best[ext=mp4]/best"]
  | .audio => ["-f", "bestaudio/best", "-x", "--audio-format", "mp3"]
  | .both => []

/-- The command exactly as claim C5 orders it: format flags between the
browser argument and `-o`.  Stated from the claim's words, for
comparison with `buildCommand`. -/
def claimCommandOrder (url name outputDir browser : String)
    (dtype : DownType) : List String :=
  ["yt-dlp", "--no-check-certificates", "--cookies-from-browser", browser]
    ++ specFormatFlags dtype
    ++ ["-o", osPathJoin outputDir (name ++ ".%(ext)s")]
    ++ [url]

/-! ## Interactive concurrency prompt (`get_interactive_settings`,
lines 16-30) -/

/-- One response typed at the concurrency prompt, as the loop
distinguishes it: an empty string (take the default), a string `int`
rejects (ValueError), or an integer. -/
inductive CountInput where
  | emptyInput : CountInput
  | nonInt : CountInput
  | intVal (n : Int) : CountInput

/-- One pass of the prompt loop: `some (stored value, warned?)` when the
loop breaks, `none` when it re-prompts.  An empty answer stores the
default 1; an integer below 1 re-prompts; any other integer is stored
unchanged, with the warning printed exactly when it exceeds 3. -/
def countStep : CountInput → Option (Int × Bool)
  | .emptyInput => some (1, false)
  | .nonInt => none
  | .intVal n => if n < 1 then none else some (n, decide (3 < n))

/-- The prompt loop over a sequence of responses: the first accepted
response decides the stored value. -/
def countLoop : List CountInput → Option (Int × Bool)
  | [] => none
  | i :: rest =>
    match countStep i with
    | some r => some r
    | none => countLoop rest

/-! ## The thread pool, modelled from the spec

Modelled from the spec: `concurrent.futures.ThreadPoolExecutor` is
Python library code, not part of this repository, so its contract is
taken from spec section 4.4: at most C tasks execute at once, tasks are
started in submission order, a finished task is reported and never
restarted, and no task's outcome ever cancels another. -/

/-- The scheduler's state: tasks not yet started (in submission order),
tasks currently executing, tasks finished. -/
structure PoolState where
  pending : List Nat
  running : List Nat
  done : List Nat
deriving DecidableEq

/-- Modelled from the spec: one scheduler transition.  A pending task
may start while fewer than C run; a running task may finish, whatever
its outcome.  Nothing else happens: no task is dropped or cancelled. -/
inductive poolStep (C : Nat) : PoolState → PoolState → Prop where
  | start (t : Nat) (rest : List Nat) (s : PoolState) :
      s.pending = t :: rest → s.running.length < C →
      poolStep C s ⟨rest, s.running ++ [t], s.done⟩
  | finish (t : Nat) (s : PoolState) :
      t ∈ s.running →
      poolStep C s ⟨s.pending, s.running.erase t, s.done ++ [t]⟩

/-- Reflexive-transitive closure of `poolStep`. -/
inductive poolReach (C : Nat) : PoolState → PoolState → Prop where
  | refl (s : PoolState) : poolReach C s s
  | tail {s t u : PoolState} : poolReach C s t → poolStep C t u →
      poolReach C s u

/-- The pool's initial state for n submitted tasks, numbered in
submission order. -/
def initState (n : Nat) : PoolState :=
  ⟨List.range n, [], []⟩

/-- At most C tasks run. -/
def boundedBy (C : Nat) (s : PoolState) : Prop :=
  s.running.length ≤ C

/-- The not-yet-started tasks are exactly the input's tail: some first k
tasks, and only those, have been started, so starts follow submission
order. -/
def submitsInOrder (n : Nat) (s : PoolState) : Prop :=
  ∃ k, s.pending = (List.range n).drop k ∧
    (s.done ++ s.running).Perm ((List.range n).take k)

/-! ## Lemmas about the string primitives -/

lemma dropWhile_head_false (p : Char → Bool) :
    ∀ (l : List Char) (c : Char) (cs : List Char),
      l.dropWhile p = c :: cs → p c = false := by
  intro l
  induction l with
  | nil => intro c cs h; simp [List.dropWhile] at h
  | cons x xs ih =>
    intro c cs h
    by_cases hx : p x
    · rw [List.dropWhile_cons_of_pos hx] at h
      exact ih c cs h
    · rw [List.dropWhile_cons_of_neg hx] at h
      cases h
      exact Bool.not_eq_true _ |>.mp hx

lemma dropWhile_append_last (p : Char → Bool) (c : Char) (h : p c = false) :
    ∀ xs : List Char, ∃ s, (xs ++ [c]).dropWhile p = s ++ [c] := by
  intro xs
  induction xs with
  | nil =>
    refine ⟨[], ?_⟩
    simp [List.dropWhile_cons, h]
  | cons x xs ih =>
    by_cases hx : p x
    · obtain ⟨s, hs⟩ := ih
      exact ⟨s, by rw [List.cons_append, List.dropWhile_cons_of_pos hx, hs]⟩
    · exact ⟨x :: xs, by rw [List.cons_append, List.dropWhile_cons_of_neg hx]⟩

lemma pstrip_of_dropWhile_cons {l : List Char} {c : Char} {cs : List Char}
    (h : l.dropWhile isPySpace = c :: cs) : ∃ r, pstrip l = c :: r := by
  have hc : isPySpace c = false := dropWhile_head_false isPySpace l c cs h
  unfold pstrip
  rw [h]
  have hrev : (c :: cs).reverse = cs.reverse ++ [c] := by simp
  rw [hrev]
  obtain ⟨s, hs⟩ := dropWhile_append_last isPySpace c hc cs.reverse
  rw [hs]
  exact ⟨s.reverse, by simp⟩

lemma pstrip_eq_nil_iff (l : List Char) :
    pstrip l = [] ↔ ∀ c ∈ l, isPySpace c = true := by
  constructor
  · intro h c hc
    by_contra hws
    have hws' : isPySpace c = false := Bool.not_eq_true _ |>.mp hws
    cases hd : l.dropWhile isPySpace with
    | nil =>
      rw [List.dropWhile_eq_nil_iff] at hd
      have := hd c hc
      rw [hws'] at this
      exact Bool.false_ne_true this
    | cons x xs =>
      obtain ⟨r, hr⟩ := pstrip_of_dropWhile_cons hd
      rw [h] at hr
      exact List.noConfusion hr
  · intro h
    unfold pstrip
    have h1 : l.dropWhile isPySpace = [] :=
      List.dropWhile_eq_nil_iff.mpr h
    rw [h1]
    rfl

lemma splitOnce_eq (l : List Char) :
    splitOnce l = (l.takeWhile (fun c => c ≠ ' '),
      if ' ' ∈ l then some ((l.dropWhile (fun c => c ≠ ' ')).tail)
      else none) := by
  induction l with
  | nil => simp [splitOnce]
  | cons c cs ih =>
    by_cases hc : c = ' '
    · subst hc
      simp [splitOnce, List.takeWhile_cons, List.dropWhile_cons]
    · rw [splitOnce]
      simp only [if_neg hc, ih]
      have ht : (c :: cs).takeWhile (fun c => c ≠ ' ') =
          c :: cs.takeWhile (fun c => c ≠ ' ') :=
        List.takeWhile_cons_of_pos (by simpa using hc)
      have hd : (c :: cs).dropWhile (fun c => c ≠ ' ') =
          cs.dropWhile (fun c => c ≠ ' ') :=
        List.dropWhile_cons_of_pos (by simpa using hc)
      have hm : (' ' ∈ c :: cs) ↔ (' ' ∈ cs) := by
        constructor
        · intro h
          rcases List.mem_cons.mp h with h | h
          · exact absurd h.symm hc
          · exact h
        · exact fun h => List.mem_cons_of_mem _ h
      rw [ht, hd]
      by_cases hmem : ' ' ∈ cs
      · rw [if_pos hmem, if_pos (hm.mpr hmem)]
      · rw [if_neg hmem, if_neg (fun h => hmem (hm.mp h))]

lemma no_space_dropWhile_nil {l : List Char} (h : ¬ ' ' ∈ l) :
    l.dropWhile (fun c => c ≠ ' ') = [] := by
  rw [List.dropWhile_eq_nil_iff]
  intro x hx
  simp only [decide_eq_true_eq]
  intro he
  exact h (he ▸ hx)

/-! ## Lemmas relating `processLine` to the amended-claim loader -/

lemma processLine_target_iff (r : List Char) (t : Target) :
    processLine r = LineResult.target t ↔ amendedLine r = some t := by
  unfold processLine amendedLine
  by_cases h0 : pstrip r = []
  · simp [h0]
  · by_cases h1 : (pstrip r).head? = some '#'
    · simp [h0, h1]
    · rw [if_neg h0, if_neg h1, if_neg h0, if_neg h1, splitOnce_eq]
      by_cases hmem : ' ' ∈ pstrip r
      · rw [if_pos hmem]
        by_cases hcond : pstrip ((pstrip r).takeWhile (fun c => c ≠ ' ')) ≠ [] ∧
            pstrip (((pstrip r).dropWhile (fun c => c ≠ ' ')).tail) ≠ []
        · simp only [if_pos hcond]
          constructor
          · intro h; cases h; rfl
          · intro h; cases h; rfl
        · simp only [if_neg hcond]
          constructor
          · intro h; exact absurd h (by simp)
          · intro h; exact absurd h (by simp)
      · rw [if_neg hmem]
        have hnil : ((pstrip r).dropWhile (fun c => c ≠ ' ')).tail = [] := by
          rw [no_space_dropWhile_nil hmem]
          rfl
        have hfail : ¬ (pstrip ((pstrip r).takeWhile (fun c => c ≠ ' ')) ≠ [] ∧
            pstrip (((pstrip r).dropWhile (fun c => c ≠ ' ')).tail) ≠ []) := by
          rw [hnil]
          intro ⟨_, hu⟩
          exact hu rfl
        simp only [if_neg hfail]
        constructor
        · intro h; exact absurd h (by simp)
        · intro h; exact absurd h (by simp)

lemma processLine_warn_iff (r : List Char) :
    processLine r = LineResult.warn ↔
      (pstrip r ≠ [] ∧ (pstrip r).head? ≠ some '#' ∧ amendedLine r = none) := by
  unfold processLine amendedLine
  by_cases h0 : pstrip r = []
  · simp [h0]
  · by_cases h1 : (pstrip r).head? = some '#'
    · simp [h0, h1]
    · rw [if_neg h0, if_neg h1, if_neg h0, if_neg h1, splitOnce_eq]
      by_cases hmem : ' ' ∈ pstrip r
      · rw [if_pos hmem]
        by_cases hcond : pstrip ((pstrip r).takeWhile (fun c => c ≠ ' ')) ≠ [] ∧
            pstrip (((pstrip r).dropWhile (fun c => c ≠ ' ')).tail) ≠ []
        · simp [hcond, h0, h1]
        · simp [hcond, h0, h1]
      · rw [if_neg hmem]
        have hnil : ((pstrip r).dropWhile (fun c => c ≠ ' ')).tail = [] := by
          rw [no_space_dropWhile_nil hmem]
          rfl
        have hfail : ¬ (pstrip ((pstrip r).takeWhile (fun c => c ≠ ' ')) ≠ [] ∧
            pstrip (((pstrip r).dropWhile (fun c => c ≠ ' ')).tail) ≠ []) := by
          rw [hnil]
          intro ⟨_, hu⟩
          exact hu rfl
        simp only [if_neg hfail]
        simp [h0, h1]

lemma amendedLine_of_not_target {r : List Char}
    (h : ∀ t, processLine r ≠ LineResult.target t) : amendedLine r = none := by
  cases ha : amendedLine r with
  | none => rfl
  | some t => exact absurd ((processLine_target_iff r t).mpr ha) (h t)

/-! ## C1: the target-list loader -/

/-- C1 (counterexample): the claim reads the loader as splitting on
WHITESPACE, but `read_download_targets` splits at the first SPACE
character only.  The line `a<TAB>b` is non-blank and non-comment, its
first whitespace-separated token `a` and trimmed remainder `b` are both
non-empty, so the claim demands the pair `(a, b)` — yet the loader
skips the line, because it contains no space. -/
theorem readDownloadTargets_tab_counterexample :
    readDownloadTargets [['a', '\t', 'b']] = [] ∧
    List.filterMap claimLineWS [['a', '\t', 'b']] = [(['a'], ['b'])] ∧
    readDownloadTargets [['a', '\t', 'b']] ≠
      List.filterMap claimLineWS [['a', '\t', 'b']] := by
  refine ⟨by decide, by decide, by decide⟩

/-- C1 (amended): for every input file that can be opened, the loader
returns exactly the ordered sequence of (name, url) pairs taken from
lines whose field before the first SPACE character (trimmed) is
non-empty and whose remainder after that space (trimmed) is non-empty;
every other non-blank, non-comment line is skipped with a warning and
never causes the loader to crash or return an error (the loader is a
total function on the opened file's lines). -/
theorem readDownloadTargets_amended (lines : List (List Char)) :
    readDownloadTargets lines = lines.filterMap amendedLine ∧
    (∀ r : List Char, processLine r = LineResult.warn ↔
      (pstrip r ≠ [] ∧ (pstrip r).head? ≠ some '#' ∧ amendedLine r = none)) := by
  constructor
  · induction lines with
    | nil => rfl
    | cons line rest ih =>
      rw [List.filterMap_cons]
      cases h : processLine line with
      | target t =>
        have ha : amendedLine line = some t := (processLine_target_iff line t).mp h
        rw [ha, readDownloadTargets, h, ih]
      | skip =>
        have ha : amendedLine line = none :=
          amendedLine_of_not_target (fun t ht => by rw [h] at ht; exact absurd ht (by simp))
        rw [ha, readDownloadTargets, h, ih]
      | warn =>
        have ha : amendedLine line = none :=
          amendedLine_of_not_target (fun t ht => by rw [h] at ht; exact absurd ht (by simp))
        rw [ha, readDownloadTargets, h, ih]
  · exact processLine_warn_iff

/-! ## C9: stripping before the comment and blank tests -/

/-- C9: the loader strips each input line before the comment test, so a
line whose first non-whitespace character is `#` is skipped as a comment
even under leading whitespace, and a line of only whitespace is skipped
as blank — in both cases silently (no warning, no target). -/
theorem processLine_comment_blank (r : List Char)
    (h : (r.dropWhile isPySpace).head? = some '#' ∨ (∀ c ∈ r, isPySpace c = true)) :
    processLine r = LineResult.skip := by
  rcases h with h | h
  · cases hd : r.dropWhile isPySpace with
    | nil => rw [hd] at h; exact absurd h (by simp)
    | cons x xs =>
      rw [hd] at h
      have hx : x = '#' := by
        simpa using h
      subst hx
      obtain ⟨s, hs⟩ := pstrip_of_dropWhile_cons hd
      unfold processLine
      rw [hs]
      rw [if_neg (by simp), if_pos (by simp)]
  · unfold processLine
    rw [if_pos ((pstrip_eq_nil_iff r).mpr h)]

/-- C9 (witness): a concrete line with leading whitespace before the
comment marker is skipped. -/
theorem processLine_comment_blank_witness :
    processLine [' ', '\t', '#', 'c'] = LineResult.skip :=
  processLine_comment_blank [' ', '\t', '#', 'c'] (by decide)

/-! ## C7: per-line output forwarding -/

lemma taskTag_append_ne (name line : List Char) :
    taskTag name ++ line ≠ line := by
  intro h
  have hl := congrArg List.length h
  simp only [List.length_append, taskTag, List.length_cons] at hl
  omega

lemma pstrip_ne_nil_iff (l : List Char) :
    pstrip l ≠ [] ↔ ∃ c ∈ l, isPySpace c = false := by
  rw [Ne, pstrip_eq_nil_iff]
  push_neg
  constructor
  · intro ⟨c, hc, hne⟩
    exact ⟨c, hc, Bool.not_eq_true _ |>.mp hne⟩
  · intro ⟨c, hc, hne⟩
    exact ⟨c, hc, by rw [hne]; exact Bool.false_ne_true⟩

/-- C7: a line read from the child's stdout or stderr is forwarded with
the `[<name>] ` tag prepended exactly when it contains a non-whitespace
character; an all-whitespace (blank) line is forwarded unchanged. -/
theorem streamLine_tags_iff_nonblank (name line : List Char) :
    (streamLine name line = taskTag name ++ line ↔ ∃ c ∈ line, isPySpace c = false) ∧
    ((∀ c ∈ line, isPySpace c = true) → streamLine name line = line) := by
  constructor
  · constructor
    · intro h
      by_contra hb
      have hnil : pstrip line = [] := by
        by_contra hne
        exact hb ((pstrip_ne_nil_iff line).mp hne)
      rw [streamLine, if_neg (by simpa using hnil)] at h
      exact taskTag_append_ne name line h.symm
    · intro h
      have hne : pstrip line ≠ [] := (pstrip_ne_nil_iff line).mpr h
      rw [streamLine, if_pos hne]
  · intro h
    have hnil : pstrip line = [] := (pstrip_eq_nil_iff line).mpr h
    rw [streamLine, if_neg (by simpa using hnil)]

/-! ## C3: the download task executor's result -/

/-- C3: `download_video` returns True exactly when the directory step
passed and the spawned process exited 0; a directory-creation failure, a
missing binary, any other spawn-time exception, and a non-zero exit all
yield the return value False — the caught exceptions never escape the
function (the embedded wrapper maps every `Except.error` to False). -/
theorem download_video_result (e : DLEnv) :
    (download_video e = true ↔
      ((needsMkdir e = true → e.mkdirOk = true) ∧ e.spawn = SpawnOutcome.spawned 0)) ∧
    (∀ exc : PyExc, downloadAttempt e = Except.error exc → download_video e = false) := by
  obtain ⟨d, de, mk, sp⟩ := e
  have herr : ∀ exc : PyExc,
      downloadAttempt ⟨d, de, mk, sp⟩ = Except.error exc →
        download_video ⟨d, de, mk, sp⟩ = false := by
    intro exc h
    rw [download_video]
    split
    · rfl
    · rw [h]
      cases exc <;> rfl
  refine ⟨?_, herr⟩
  cases sp with
  | spawned code =>
    by_cases hm : needsMkdir ⟨d, de, mk, .spawned code⟩ && !mk
    · rw [download_video, if_pos hm]
      simp only [Bool.and_eq_true, Bool.not_eq_true'] at hm
      constructor
      · intro h; exact absurd h (by simp)
      · rintro ⟨h1, -⟩
        have hmk : mk = true := h1 hm.1
        rw [hmk] at hm
        exact absurd hm.2 (by simp)
    · rw [download_video, if_neg hm]
      simp only [Bool.and_eq_true, Bool.not_eq_true', not_and] at hm
      simp only [downloadAttempt, decide_eq_true_eq, SpawnOutcome.spawned.injEq]
      constructor
      · intro h
        refine ⟨fun hneed => ?_, h⟩
        cases hmk : mk
        · exact absurd hmk (hm hneed)
        · rfl
      · exact fun ⟨_, h⟩ => h
  | notFoundErr =>
    rw [herr PyExc.fileNotFound (by rw [downloadAttempt])]
    simp
  | otherExc =>
    rw [herr PyExc.otherError (by rw [downloadAttempt])]
    simp

/-! ## C4: the supervisor's own exit code -/

/-- C4: the supervisor exits 1 exactly when the preflight version check
fails or the target file cannot be read, and in those cases nothing is
scheduled; it exits 0 exactly when both succeed — whatever mix of task
outcomes (including all failures) and for the empty target list. -/
theorem mainModel_exit_codes (chk : RunOutcome) (rd : ReadOutcome)
    (outcomes : List TaskOutcome) :
    ((mainModel chk rd outcomes).exitCode = 1 ↔
      (check_yt_dlp chk = false ∨ readTargetsFile rd = none)) ∧
    ((mainModel chk rd outcomes).exitCode = 1 →
      (mainModel chk rd outcomes).scheduled = []) ∧
    ((mainModel chk rd outcomes).exitCode = 0 ↔
      (check_yt_dlp chk = true ∧ readTargetsFile rd ≠ none)) := by
  by_cases hc : check_yt_dlp chk = false
  · simp [mainModel, hc]
  · have hc' : check_yt_dlp chk = true := by
      cases h : check_yt_dlp chk
      · exact absurd h hc
      · rfl
    cases hr : readTargetsFile rd with
    | none => simp [mainModel, hc', hr]
    | some ts =>
      by_cases hts : ts = []
      · simp [mainModel, hc', hr, hts]
      · simp [mainModel, hc', hr, hts]

/-! ## C2: the aggregator counts every task exactly once -/

lemma foldl_outcomeStep (l : List TaskOutcome) :
    ∀ acc : Nat × Nat,
      (l.foldl outcomeStep acc).1 + (l.foldl outcomeStep acc).2 =
        acc.1 + acc.2 + l.length := by
  induction l with
  | nil => intro acc; simp
  | cons o rest ih =>
    intro acc
    rw [List.foldl_cons, ih]
    cases o <;> simp [outcomeStep] <;> omega

/-- C2: for every target list and every mix of per-task outcomes (True,
False, or a raised exception, one outcome per submitted future), the
success and failure counters of the `as_completed` loop sum to the
number of submitted targets, and in a normal run that sum is what the
summary reports. -/
theorem aggregate_counts_all (chk : RunOutcome) (lines : List (List Char))
    (outcomes : List TaskOutcome)
    (h1 : check_yt_dlp chk = true)
    (h2 : outcomes.length = (readDownloadTargets lines).length) :
    (aggregate outcomes).1 + (aggregate outcomes).2 =
      (readDownloadTargets lines).length ∧
    (readDownloadTargets lines ≠ [] →
      (mainModel chk (ReadOutcome.opened lines) outcomes).summary =
        some (aggregate outcomes)) := by
  constructor
  · rw [aggregate, foldl_outcomeStep outcomes (0, 0)]
    simpa using h2
  · intro hne
    simp [mainModel, h1, readTargetsFile, hne]

/-- C2 (witness): one submitted target whose future raises; the counts
sum to 1 and the summary reports them. -/
theorem aggregate_counts_all_witness :
    (aggregate [TaskOutcome.fault]).1 + (aggregate [TaskOutcome.fault]).2 =
      (readDownloadTargets [['a', ' ', 'b']]).length ∧
    (readDownloadTargets [['a', ' ', 'b']] ≠ [] →
      (mainModel (RunOutcome.completed 0) (ReadOutcome.opened [['a', ' ', 'b']])
        [TaskOutcome.fault]).summary = some (aggregate [TaskOutcome.fault])) :=
  aggregate_counts_all (RunOutcome.completed 0) [['a', ' ', 'b']]
    [TaskOutcome.fault] (by decide) (by decide)

/-! ## C6: the present-but-useless target file -/

/-- C6 (counterexample): with the preflight passing and a target file
containing only a comment line, the loader returns the empty list and
the supervisor exits 0 scheduling nothing — but it prints the
no-valid-targets notice and exits BEFORE the summary block, so no
`0/0` summary is emitted, contradicting the claim's last part. -/
theorem mainModel_empty_counterexample :
    readDownloadTargets [['#', 'c']] = [] ∧
    mainModel (RunOutcome.completed 0) (ReadOutcome.opened [['#', 'c']]) [] =
      ⟨0, [], none, true⟩ ∧
    (mainModel (RunOutcome.completed 0) (ReadOutcome.opened [['#', 'c']]) []).summary ≠
      some (0, 0) := by
  refine ⟨by decide, by decide, by decide⟩

/-- C6 (amended): when the target file exists but contains no valid
target line, the loader returns the empty sequence (not an error), zero
tasks are scheduled, the process exits 0, and the no-valid-targets
notice is printed in place of the summary block (which is not
emitted). -/
theorem mainModel_empty_targets (chk : RunOutcome) (lines : List (List Char))
    (outcomes : List TaskOutcome)
    (h1 : check_yt_dlp chk = true)
    (h2 : readDownloadTargets lines = []) :
    mainModel chk (ReadOutcome.opened lines) outcomes = ⟨0, [], none, true⟩ := by
  simp [mainModel, h1, readTargetsFile, h2]

/-- C6 (witness): the concrete comment-only file. -/
theorem mainModel_empty_targets_witness :
    mainModel (RunOutcome.completed 0) (ReadOutcome.opened [['#', 'c']]) [] =
      ⟨0, [], none, true⟩ :=
  mainModel_empty_targets (RunOutcome.completed 0) [['#', 'c']] [] (by decide)
    (by decide)

/-! ## C5: the constructed command line -/

/-- C5 (counterexample): for media-type "video" the code places the
format flags AFTER the `-o` output template (and likewise for "audio"),
not between the browser argument and `-o` as the claim's template
orders them, so the command is not "exactly" the claimed sequence. -/
theorem buildCommand_order_counterexample :
    buildCommand "https://example.com/a" "clip1" "out" "firefox" DownType.video =
      ["yt-dlp", "--no-check-certificates", "--cookies-from-browser", "firefox",
       "-o", "out/clip1.%(ext)s",
       "-f", "bestvideo[ext=mp4]+bestaudio[ext=m4a]/best[ext=mp4]/best",
       "https://example.com/a"] ∧
    claimCommandOrder "https://example.com/a" "clip1" "out" "firefox" DownType.video =
      ["yt-dlp", "--no-check-certificates", "--cookies-from-browser", "firefox",
       "-f", "bestvideo[ext=mp4]+bestaudio[ext=m4a]/best[ext=mp4]/best",
       "-o", "out/clip1.%(ext)s",
       "https://example.com/a"] ∧
    buildCommand "https://example.com/a" "clip1" "out" "firefox" DownType.video ≠
      claimCommandOrder "https://example.com/a" "clip1" "out" "firefox" DownType.video := by
  refine ⟨by decide, by decide, by decide⟩

/-- C5 (amended): for every target and settings the executor builds
exactly `<binary> --no-check-certificates --cookies-from-browser
<browser> -o <outputDir>/<name>.%(ext)s [format flags] <url>` — the
format flags following the output template — with the URL as the final
argument, where the format flags are the MP4 video+audio selector with
its two fallbacks for "video", a best-audio selector with extraction
and transcoding to MP3 for "audio", and nothing for "both". -/
theorem buildCommand_shape (url name outputDir browser : String)
    (dtype : DownType) :
    buildCommand url name outputDir browser dtype =
      ["yt-dlp", "--no-check-certificates", "--cookies-from-browser", browser,
       "-o", osPathJoin outputDir (name ++ ".%(ext)s")]
        ++ specFormatFlags dtype ++ [url] ∧
    (buildCommand url name outputDir browser dtype).getLast? = some url ∧
    specFormatFlags DownType.both = [] := by
  refine ⟨?_, ?_, rfl⟩
  · cases dtype <;> rfl
  · cases dtype <;>
      simp [buildCommand, List.getLast?_concat]

/-! ## C10: the interactive concurrency prompt -/

/-- C10: every integer answer n ≥ 1 at the concurrency prompt is
accepted immediately and stored unchanged, whatever responses would
have followed; the high-concurrency warning is printed exactly when
n > 3, and does not alter the stored value. -/
theorem countLoop_accepts_ge_one (n : Int) (rest : List CountInput)
    (h : 1 ≤ n) :
    countLoop (CountInput.intVal n :: rest) = some (n, decide (3 < n)) := by
  rw [countLoop, countStep]
  rw [if_neg (by omega)]

/-- C10 (witness): the answer 7 — above the warning threshold — is
accepted, stored as 7, and flagged with the warning. -/
theorem countLoop_accepts_ge_one_witness :
    countLoop [CountInput.intVal 7] = some (7, true) :=
  countLoop_accepts_ge_one 7 [] (by decide)

/-! ## C8: the bounded scheduler -/

lemma poolReach_trans {C : Nat} {a b c : PoolState}
    (h1 : poolReach C a b) (h2 : poolReach C b c) : poolReach C a c := by
  induction h2 with
  | refl => exact h1
  | tail _ hstep ih => exact .tail ih hstep

lemma poolStep_invariant {C n : Nat} {a b : PoolState} (hstep : poolStep C a b)
    (hb : boundedBy C a) (ho : submitsInOrder n a) :
    boundedBy C b ∧ submitsInOrder n b := by
  obtain ⟨k, hp, hperm⟩ := ho
  cases hstep with
  | start t rest s hpend hlt =>
    have hdrop : (List.range n).drop k = t :: rest := hp ▸ hpend
    have hk : k < (List.range n).length := by
      by_contra hge
      rw [List.drop_eq_nil_of_le (Nat.le_of_not_lt hge)] at hdrop
      exact List.noConfusion hdrop
    have hget : (List.range n).drop k =
        (List.range n)[k] :: (List.range n).drop (k + 1) :=
      List.drop_eq_getElem_cons hk
    rw [hget] at hdrop
    have ht : t = (List.range n)[k] := (List.cons.injEq _ _ _ _ ▸ hdrop).1.symm
    have hrest : rest = (List.range n).drop (k + 1) :=
      ((List.cons.injEq _ _ _ _ ▸ hdrop).2).symm
    constructor
    · simpa [boundedBy] using hlt
    · refine ⟨k + 1, hrest, ?_⟩
      have htake : (List.range n).take (k + 1) =
          (List.range n).take k ++ [(List.range n)[k]] := by
        rw [← List.take_concat_get _ _ hk, List.concat_eq_append]
      show ((a.done ++ (a.running ++ [t])).Perm ((List.range n).take (k + 1)))
      rw [htake, ← List.append_assoc, ht]
      exact hperm.append_right [(List.range n)[k]]
  | finish t s hmem =>
    constructor
    · exact Nat.le_trans ((List.erase_sublist t a.running).length_le) hb
    · refine ⟨k, hp, ?_⟩
      show (((a.done ++ [t]) ++ a.running.erase t).Perm ((List.range n).take k))
      have hassoc : (a.done ++ [t]) ++ a.running.erase t =
          a.done ++ (t :: a.running.erase t) := by
        rw [List.append_assoc, List.singleton_append]
      rw [hassoc]
      exact ((List.perm_cons_erase hmem).symm.append_left a.done).trans hperm

lemma poolReach_invariant {C n : Nat} {s : PoolState}
    (h : poolReach C (initState n) s) :
    boundedBy C s ∧ submitsInOrder n s := by
  induction h with
  | refl =>
    refine ⟨Nat.zero_le C, 0, rfl, ?_⟩
    simp [initState]
  | tail _ hstep ih =>
    exact poolStep_invariant hstep ih.1 ih.2

lemma poolReach_seq {C : Nat} (hC : 1 ≤ C) :
    ∀ (ts done : List Nat),
      poolReach C ⟨ts, [], done⟩ ⟨[], [], done ++ ts⟩ := by
  intro ts
  induction ts with
  | nil =>
    intro done
    rw [List.append_nil]
    exact .refl _
  | cons t ts ih =>
    intro done
    have s1 : poolStep C ⟨t :: ts, [], done⟩ ⟨ts, [t], done⟩ :=
      poolStep.start t ts ⟨t :: ts, [], done⟩ rfl (by simpa using hC)
    have s2 : poolStep C ⟨ts, [t], done⟩ ⟨ts, [], done ++ [t]⟩ := by
      have h := poolStep.finish (C := C) t ⟨ts, [t], done⟩ (by simp)
      simpa using h
    have h3 : poolReach C ⟨ts, [], done ++ [t]⟩ ⟨[], [], (done ++ [t]) ++ ts⟩ :=
      ih (done ++ [t])
    have h4 : (done ++ [t]) ++ ts = done ++ (t :: ts) := by
      rw [List.append_assoc, List.singleton_append]
    rw [h4] at h3
    exact poolReach_trans (.tail (.tail (.refl _) s1) s2) h3

/-- C8: with concurrency limit C ≥ 1 and N submitted tasks, every
reachable scheduler state runs at most C tasks at once and has started
only some first k tasks of the submission order; every incomplete
reachable state can take another step (no early exit, whatever the
tasks' outcomes); and the state in which all N tasks have completed is
reachable. -/
theorem pool_bounded_ordered_complete (C n : Nat) (hC : 1 ≤ C) :
    (∀ s : PoolState, poolReach C (initState n) s →
      boundedBy C s ∧ submitsInOrder n s) ∧
    (∀ s : PoolState, poolReach C (initState n) s →
      (s.pending ≠ [] ∨ s.running ≠ []) → ∃ u, poolStep C s u) ∧
    poolReach C (initState n) ⟨[], [], List.range n⟩ := by
  refine ⟨fun s h => poolReach_invariant h, ?_, ?_⟩
  · intro s _ hne
    cases hr : s.running with
    | cons t rs =>
      exact ⟨_, poolStep.finish t s (by rw [hr]; exact List.mem_cons_self t rs)⟩
    | nil =>
      cases hp : s.pending with
      | nil =>
        rcases hne with hne | hne
        · exact absurd hp hne
        · exact absurd hr hne
      | cons t rest =>
        refine ⟨_, poolStep.start t rest s hp ?_⟩
        rw [hr]
        simpa using hC
  · have h := poolReach_seq hC (List.range n) []
    simpa using h

/-- C8 (witness): concurrency limit 1 with two submitted tasks. -/
theorem pool_bounded_ordered_complete_witness :
    1 ≤ 1 ∧
    ((∀ s : PoolState, poolReach 1 (initState 2) s →
      boundedBy 1 s ∧ submitsInOrder 2 s) ∧
    (∀ s : PoolState, poolReach 1 (initState 2) s →
      (s.pending ≠ [] ∨ s.running ≠ []) → ∃ u, poolStep 1 s u) ∧
    poolReach 1 (initState 2) ⟨[], [], List.range 2⟩) :=
  ⟨by decide, pool_bounded_ordered_complete 1 2 (by decide)⟩

end Mediasite
